import Mathlib

/-!
Formal model of the VRP dispatch simulation (`vrp_streamlit.py`).

The program keeps a growing list of orders (`all_orders`) and a pool of
vehicle records; every simulation step it filters the vehicles that are
available (`available_at <= now and trip_count < 3`), filters the orders
that can still be reached in time (`can_reach_in_time`), hands both lists
to an external OR-Tools solve (`assign_orders`) and applies the returned
assignments to the vehicle records.

Externals are modelled as parameters:
* the geodesic distance (geopy) is a parameter `dist : Loc → Loc → ℚ`;
* the OR-Tools solve result is a parameter `sol : Option (List (List Nat))`,
  one visited-node sequence per vehicle index; the contract the registered
  routing model imposes on it is `validSolve`;
* the random draws of `generate_random_order` and the wall-clock readings
  are explicit arguments.

Record field names follow the Python dictionary keys, with `id` rendered
as `oid` / `vid` and the ids themselves as numbers (the Python ids are the
strings "O{i}" / "V{i+1}", in bijection with these numbers).
-/

namespace VRP

/-- Coordinates (latitude, longitude) as a rational pair. -/
abbrev Loc : Type := ℚ × ℚ

/-- An order record, mirroring the dictionary built by `generate_random_order`:
id, location, volume, weight, priority, wait_time (minutes), arrival_time. -/
structure Order where
  oid : Nat
  location : Loc
  volume : Nat
  weight : Nat
  priority : Nat
  wait_time : ℚ
  arrival_time : ℚ
deriving DecidableEq, Repr

/-- A vehicle record of the `vehicle_pool`: id, `max_vol`, `max_weight`,
`available_at`, `trip_count`. -/
structure Vehicle where
  vid : Nat
  max_vol : Nat
  max_weight : Nat
  available_at : ℚ
  trip_count : Nat
deriving DecidableEq, Repr

/-- The per-run cap on trips per vehicle: the simulation loop hardcodes
`trip_count < 3` in its availability filter. -/
def max_trips : Nat := 3

/-- `travel_time_km(loc1, loc2)`: minutes to travel between two locations,
`(distance_km / vehicle_speed) * 60`. The geodesic distance is external. -/
def travel_time_km (dist : Loc → Loc → ℚ) (speed : ℚ) (loc1 loc2 : Loc) : ℚ :=
  dist loc1 loc2 / speed * 60

/-- The wait budget in minutes as a function of priority alone:
30 for priority 1 (urgent), 60 otherwise (standard), as set by
`generate_random_order` (`wait_time = 30 if priority == 1 else 60`). -/
def wait_budget (priority : Nat) : ℚ :=
  if priority = 1 then 30 else 60

/-- `generate_random_order(i)`: the random draws (coordinates, volume, weight,
priority) and the `datetime.now()` reading are passed as arguments. -/
def generate_random_order (i : Nat) (lat lon : ℚ) (volume weight priority : Nat)
    (now : ℚ) : Order :=
  { oid := i, location := (lat, lon), volume := volume, weight := weight,
    priority := priority, wait_time := if priority = 1 then 30 else 60,
    arrival_time := now }

/-- The latest delivery time of an order: `arrival_time + wait_time`
(the `latest_delivery` computed inside `can_reach_in_time`). -/
def deadline (o : Order) : ℚ := o.arrival_time + o.wait_time

/-- `can_reach_in_time(order, depot, vehicle_available_at)`: true when
`vehicle_available_at + travel_minutes <= arrival_time + wait_time`. -/
def can_reach_in_time (dist : Loc → Loc → ℚ) (speed : ℚ) (order : Order)
    (depot : Loc) (vehicle_available_at : ℚ) : Bool :=
  let travel_minutes := travel_time_km dist speed depot order.location
  let latest_delivery := order.arrival_time + order.wait_time
  let expected_delivery := vehicle_available_at + travel_minutes
  decide (expected_delivery ≤ latest_delivery)

/-- Walking one vehicle's solver route: the depot node 0 is skipped and node
`k` is mapped to `orders[k-1]` (`if node != 0: route.append(orders[node-1])`). -/
def extractRoute (orders : List Order) (nodes : List Nat) : List Order :=
  nodes.filterMap (fun node => if node = 0 then none else orders[node-1]?)

/-- The body of the per-vehicle walk of `assign_orders`: a vehicle paired with
its extracted route when that route is nonempty (`if route: assignments.append`),
nothing otherwise. -/
def pairRoute (orders : List Order) (p : Vehicle × List Nat) :
    Option (Vehicle × List Order) :=
  let route := extractRoute orders p.2
  if route.isEmpty then none else some (p.1, route)

/-- `assign_orders(orders, vehicles)`. The OR-Tools solve is external; its
result is the argument `sol`: `none` when the solver returns no solution,
`some routes` with the node sequence walked for each vehicle index otherwise.
With empty `orders` or `vehicles` the function returns `[]` before solving;
otherwise each vehicle whose extracted route is nonempty is paired with it. -/
def assign_orders (orders : List Order) (vehicles : List Vehicle)
    (sol : Option (List (List Nat))) : List (Vehicle × List Order) :=
  if orders.isEmpty || vehicles.isEmpty then []
  else
    match sol with
    | none => []
    | some routes => (vehicles.zip routes).filterMap (pairRoute orders)

/-- The contract the routing model built by `assign_orders` imposes on the
external solve (one route per vehicle starting at the depot, every order node
visited exactly once, at most `max_orders_per_vehicle` non-depot stops per
route via the `OrderCount` dimension). Volume and weight are NOT part of the
model the code builds: `volumes` and `weights` are computed but never used. -/
def validSolve (n numV cap : Nat) (routes : List (List Nat)) : Bool :=
  decide (routes.length = numV) &&
  routes.all (fun r => decide ((r.filter (fun node => node != 0)).length ≤ cap)) &&
  routes.all (fun r => r.all (fun node => node ≤ n)) &&
  (List.range n).all (fun j => decide ((routes.map (fun r => r.count (j+1))).sum = 1))

/-- The session state the simulation loop acts on: the order list and the
vehicle pool. (The delivery log and out-for-delivery lists are initialized
but never written by the loop.) -/
structure SimState where
  all_orders : List Order
  vehicle_pool : List Vehicle
deriving DecidableEq, Repr

/-- The availability filter of the loop:
`[v for v in vehicle_pool if v["available_at"] <= now and v["trip_count"] < 3]`. -/
def available_vehicles (pool : List Vehicle) (now : ℚ) : List Vehicle :=
  pool.filter (fun v => decide (v.available_at ≤ now) && decide (v.trip_count < max_trips))

/-- `total_route_minutes`: the loop sums `travel_time_km(DEPOT_LOCATION, o.location)`
over the assigned orders (each leg measured from the depot). -/
def total_route_minutes (dist : Loc → Loc → ℚ) (speed : ℚ) (depot : Loc)
    (route : List Order) : ℚ :=
  (route.map (fun o => travel_time_km dist speed depot o.location)).sum

/-- The update the commit phase applies to a dispatched vehicle:
`available_at = now + total_route_minutes`, `trip_count += 1`. -/
def commit_vehicle (dist : Loc → Loc → ℚ) (speed : ℚ) (depot : Loc) (now : ℚ)
    (v : Vehicle) (route : List Order) : Vehicle :=
  { v with available_at := now + total_route_minutes dist speed depot route,
           trip_count := v.trip_count + 1 }

/-- Applying the tick's assignments to the pool. The Python loop mutates each
assigned vehicle dictionary in place; here the pool is rebuilt, matching the
assignment by vehicle id. -/
def apply_assignments (dist : Loc → Loc → ℚ) (speed : ℚ) (depot : Loc) (now : ℚ)
    (asg : List (Vehicle × List Order)) (pool : List Vehicle) : List Vehicle :=
  pool.map (fun v =>
    match asg.find? (fun a => a.1.vid == v.vid) with
    | some a => commit_vehicle dist speed depot now v a.2
    | none => v)

/-- The order list after the ingest phase of a step: a possible new random
order is appended to `all_orders`; nothing is ever removed. -/
def tick_orders (s : SimState) (newOrder : Option Order) : List Order :=
  s.all_orders ++ newOrder.toList

/-- The `valid_orders` of a step:
`[o for o in all_orders if can_reach_in_time(o, DEPOT_LOCATION, now)]`. -/
def tick_valid (dist : Loc → Loc → ℚ) (speed : ℚ) (depot : Loc) (now : ℚ)
    (newOrder : Option Order) (s : SimState) : List Order :=
  (tick_orders s newOrder).filter (fun o => can_reach_in_time dist speed o depot now)

/-- The assignments computed during one step:
`assign_orders(valid_orders, available_vehicles)` with the external solve `sol`. -/
def tickAssignments (dist : Loc → Loc → ℚ) (speed : ℚ) (depot : Loc) (now : ℚ)
    (newOrder : Option Order) (sol : Option (List (List Nat)))
    (s : SimState) : List (Vehicle × List Order) :=
  assign_orders (tick_valid dist speed depot now newOrder s)
    (available_vehicles s.vehicle_pool now) sol

/-- One step of the simulation loop (one iteration of `for step in range(10)`):
ingest an optional new order, compute assignments, commit them to the pool. -/
def tick (dist : Loc → Loc → ℚ) (speed : ℚ) (depot : Loc) (now : ℚ)
    (newOrder : Option Order) (sol : Option (List (List Nat)))
    (s : SimState) : SimState :=
  { all_orders := tick_orders s newOrder,
    vehicle_pool := apply_assignments dist speed depot now
      (tickAssignments dist speed depot now newOrder sol s) s.vehicle_pool }

/-- The per-step external inputs: the clock reading, the optional random new
order, and the external solver's answer. -/
structure TickInput where
  now : ℚ
  newOrder : Option Order
  sol : Option (List (List Nat))
deriving Repr

/-- Running the simulation loop over a list of per-step inputs. -/
def run (dist : Loc → Loc → ℚ) (speed : ℚ) (depot : Loc) :
    List TickInput → SimState → SimState
  | [], s => s
  | t :: ts, s => run dist speed depot ts (tick dist speed depot t.now t.newOrder t.sol s)

/-- Modelled from the spec: `routeDuration` as the sum of consecutive leg
travel times along depot→order1→order2→…, for comparison with the code's
`total_route_minutes`. -/
def spec_leg_duration (dist : Loc → Loc → ℚ) (speed : ℚ) : Loc → List Order → ℚ
  | _, [] => 0
  | pos, o :: rest =>
      travel_time_km dist speed pos o.location + spec_leg_duration dist speed o.location rest

/-- The two vehicle states observable in the code. The vehicle dictionaries
carry no status field; following the spec's reading of the code, a vehicle is
`Available` at time `now` exactly when `available_at ≤ now` and `Dispatched`
(out on a route) otherwise. -/
inductive VStatus where
  | Available : VStatus
  | Dispatched : VStatus
deriving DecidableEq, Repr

/-- The derived status of a vehicle record at a given time. -/
def Vehicle.status (v : Vehicle) (now : ℚ) : VStatus :=
  if v.available_at ≤ now then VStatus.Available else VStatus.Dispatched

/-- The order ids dispatched by a list of assignments, in order. -/
def assigned_oids (asg : List (Vehicle × List Order)) : List Nat :=
  asg.foldr (fun a acc => a.2.map Order.oid ++ acc) []

/-- Concrete depot used in counterexamples and witnesses. -/
def pA : Loc := (0, 0)

/-- Concrete order location, 3 units from `pA`. -/
def pB : Loc := (0, 3)

/-- Concrete order location, 4 units from `pA` and 5 from `pB`. -/
def pC : Loc := (4, 0)

/-- A concrete distance function: the 3-4-5 right triangle on `pA`, `pB`, `pC`
(the plane Euclidean distance on those three points, hence a genuine metric). -/
def triDist (l1 l2 : Loc) : ℚ :=
  if l1 = l2 then 0
  else if (l1 = pA ∧ l2 = pB) ∨ (l1 = pB ∧ l2 = pA) then 3
  else if (l1 = pA ∧ l2 = pC) ∨ (l1 = pC ∧ l2 = pA) then 4
  else 5

/-- A concrete order at `pB` (travel 3 minutes at speed 60). -/
def oB : Order :=
  { oid := 0, location := pB, volume := 30, weight := 10, priority := 2,
    wait_time := 60, arrival_time := 0 }

/-- A concrete order at `pC` (travel 4 minutes at speed 60). -/
def oC : Order :=
  { oid := 1, location := pC, volume := 30, weight := 10, priority := 2,
    wait_time := 60, arrival_time := 0 }

/-- A concrete fresh vehicle with the pool's fixed capacities. -/
def vFresh : Vehicle :=
  { vid := 1, max_vol := 100, max_weight := 200, available_at := 0, trip_count := 0 }

/-- A concrete vehicle that has already driven the maximal three trips. -/
def vRetired : Vehicle :=
  { vid := 2, max_vol := 100, max_weight := 200, available_at := 0, trip_count := 3 }

/-- A concrete order whose deadline (30) has long passed at time 100. -/
def oExp : Order :=
  { oid := 7, location := pB, volume := 12, weight := 8, priority := 1,
    wait_time := 30, arrival_time := 0 }

/-- A family of concrete orders at `pB` of volume 30 each (the maximum the
generator draws). -/
def vol30 (i : Nat) : Order :=
  { oid := i, location := pB, volume := 30, weight := 10, priority := 2,
    wait_time := 60, arrival_time := 0 }

/-- Four volume-30 orders: total volume 120, above the fixed `max_vol = 100`. -/
def fourOrders : List Order := [vol30 0, vol30 1, vol30 2, vol30 3]

/-- A family of concrete orders at `pB` of volume 25 each. -/
def vol25 (i : Nat) : Order :=
  { oid := i, location := pB, volume := 25, weight := 10, priority := 2,
    wait_time := 60, arrival_time := 0 }

/-- Five volume-25 orders: total volume 125, above the fixed `max_vol = 100`. -/
def fiveOrders : List Order := [vol25 0, vol25 1, vol25 2, vol25 3, vol25 4]

/-- A concrete one-order, one-vehicle starting state. -/
def s0 : SimState := { all_orders := [oB], vehicle_pool := [vFresh] }

/-- A concrete state holding one long-expired order. -/
def sExp : SimState := { all_orders := [oExp], vehicle_pool := [vFresh] }

/-- A concrete state whose only vehicle has exhausted its three trips. -/
def sRet : SimState := { all_orders := [], vehicle_pool := [vRetired] }

/-- A concrete state with two orders (at `pB` and `pC`) and one vehicle. -/
def sBC : SimState := { all_orders := [oB, oC], vehicle_pool := [vFresh] }

/-- A concrete state with four volume-30 orders and one vehicle. -/
def sC1 : SimState := { all_orders := fourOrders, vehicle_pool := [vFresh] }

/-- A concrete state with five volume-25 orders and one vehicle. -/
def sC3 : SimState := { all_orders := fiveOrders, vehicle_pool := [vFresh] }

/-- The vehicle of `s0` after committing the route `[oB]` at time 0:
`available_at = 3`, one trip driven. -/
def vB1 : Vehicle :=
  { vid := 1, max_vol := 100, max_weight := 200, available_at := 3, trip_count := 1 }

/-- The state reached from `s0` by the step at time 0 that dispatches `oB`. -/
def s1 : SimState := { all_orders := [oB], vehicle_pool := [vB1] }

theorem triDist_AB : triDist pA pB = 3 := by decide

theorem tt_AB : travel_time_km triDist 60 pA pB = 3 := by
  rw [travel_time_km, triDist_AB]; norm_num

theorem tt_AC : travel_time_km triDist 60 pA pC = 4 := by
  rw [travel_time_km]
  norm_num [triDist, pA, pB, pC, Prod.ext_iff]

theorem tt_BC : travel_time_km triDist 60 pB pC = 5 := by
  rw [travel_time_km]
  norm_num [triDist, pA, pB, pC, Prod.ext_iff]

theorem cr_oB_0 : can_reach_in_time triDist 60 oB pA 0 = true := by
  simp only [can_reach_in_time, oB, tt_AB, decide_eq_true_eq]
  norm_num

theorem cr_oB_10 : can_reach_in_time triDist 60 oB pA 10 = true := by
  simp only [can_reach_in_time, oB, tt_AB, decide_eq_true_eq]
  norm_num

theorem cr_oC_0 : can_reach_in_time triDist 60 oC pA 0 = true := by
  simp only [can_reach_in_time, oC, tt_AC, decide_eq_true_eq]
  norm_num

theorem cr_vol30 (i : Nat) : can_reach_in_time triDist 60 (vol30 i) pA 0 = true := by
  simp only [can_reach_in_time, vol30, tt_AB, decide_eq_true_eq]
  norm_num

theorem cr_vol25 (i : Nat) : can_reach_in_time triDist 60 (vol25 i) pA 0 = true := by
  simp only [can_reach_in_time, vol25, tt_AB, decide_eq_true_eq]
  norm_num

/-- Anything `assign_orders` returns is built from the records it was given:
the vehicle component is a member of the input vehicle list and every order of
the route is a member of the input order list. -/
theorem mem_assign_orders {orders : List Order} {vehicles : List Vehicle}
    {sol : Option (List (List Nat))} {v : Vehicle} {route : List Order}
    (h : (v, route) ∈ assign_orders orders vehicles sol) :
    v ∈ vehicles ∧ ∀ o ∈ route, o ∈ orders := by
  unfold assign_orders at h
  split at h
  · simp at h
  · cases sol with
    | none => simp at h
    | some routes =>
      simp only [List.mem_filterMap] at h
      obtain ⟨p, hp, he⟩ := h
      obtain ⟨p1, p2⟩ := p
      by_cases hre : (extractRoute orders p2).isEmpty
      · simp [pairRoute, hre] at he
      · simp only [pairRoute, hre, Bool.false_eq_true, if_false, Option.some.injEq,
          Prod.mk.injEq] at he
        obtain ⟨hv, hroute⟩ := he
        constructor
        · exact hv ▸ (List.of_mem_zip hp).1
        · intro o ho
          rw [← hroute] at ho
          simp only [extractRoute, List.mem_filterMap] at ho
          obtain ⟨node, _, hsome⟩ := ho
          by_cases h0 : node = 0
          · simp [h0] at hsome
          · simp only [h0, if_false] at hsome
            exact List.getElem?_mem hsome

/-- C6 (confirmed): `can_reach_in_time(order, depot, candidateAvailableAt)` is a
pure predicate (a function of its arguments in this model, mirroring a Python
function that writes nothing) and returns `true` exactly when
`candidateAvailableAt + travelTime(depot, order.location) ≤ order.deadline`,
where the deadline is `arrivalTime + waitBudget(priority)` whenever the stored
`wait_time` came from the priority-only budget, as `generate_random_order`
always sets it. -/
theorem feasibility_iff (dist : Loc → Loc → ℚ) (speed : ℚ) (o : Order) (depot : Loc)
    (candidateAvailableAt : ℚ) (hw : o.wait_time = wait_budget o.priority) :
    (can_reach_in_time dist speed o depot candidateAvailableAt = true ↔
      candidateAvailableAt + travel_time_km dist speed depot o.location ≤ deadline o) ∧
    deadline o = o.arrival_time + wait_budget o.priority := by
  constructor
  · simp only [can_reach_in_time, deadline, decide_eq_true_eq]
  · simp [deadline, hw]

theorem feasibility_iff_witness :
    oB.wait_time = wait_budget oB.priority ∧
    ((can_reach_in_time triDist 60 oB pA 0 = true ↔
      (0:ℚ) + travel_time_km triDist 60 pA oB.location ≤ deadline oB) ∧
    deadline oB = oB.arrival_time + wait_budget oB.priority) :=
  ⟨by decide, feasibility_iff triDist 60 oB pA 0 (by decide)⟩

/-- C9 (confirmed): every order built by `generate_random_order` has
`deadline = arrivalTime + waitBudget(priority)` where the budget is a function
of the priority alone, the urgent budget (priority 1, 30 minutes) is strictly
shorter than the standard one (priority 2, 60 minutes), and consequently
`deadline > arrivalTime`. -/
theorem generated_deadline (i : Nat) (lat lon : ℚ) (volume weight priority : Nat) (now : ℚ) :
    deadline (generate_random_order i lat lon volume weight priority now) =
      (generate_random_order i lat lon volume weight priority now).arrival_time +
        wait_budget (generate_random_order i lat lon volume weight priority now).priority ∧
    wait_budget 1 < wait_budget 2 ∧
    (generate_random_order i lat lon volume weight priority now).arrival_time <
      deadline (generate_random_order i lat lon volume weight priority now) := by
  refine ⟨by simp [deadline, generate_random_order, wait_budget], by norm_num [wait_budget], ?_⟩
  by_cases hp : priority = 1 <;>
    simp only [deadline, generate_random_order, hp, if_true, if_false] <;>
    norm_num

/-- C10 (confirmed): `assign_orders` is read-only on its inputs — in this model
it is a pure function, mirroring a Python function that never writes an order
or vehicle field (the only field writes of the program are in the commit phase
of the loop, modelled by `apply_assignments`); it returns `[]` when either
input list is empty, and every record it returns is one of the records it was
given, unchanged. -/
theorem assign_orders_frame (orders : List Order) (vehicles : List Vehicle)
    (sol : Option (List (List Nat))) :
    assign_orders [] vehicles sol = [] ∧
    assign_orders orders [] sol = [] ∧
    ∀ v route, (v, route) ∈ assign_orders orders vehicles sol →
      v ∈ vehicles ∧ ∀ o ∈ route, o ∈ orders :=
  ⟨by simp [assign_orders], by simp [assign_orders],
   fun _ _ h => mem_assign_orders h⟩

theorem assign_orders_frame_witness :
    vFresh ∈ [vFresh] ∧ ∀ o ∈ [oB], o ∈ [oB] :=
  (assign_orders_frame [oB] [vFresh] (some [[0, 1]])).2.2 vFresh [oB] (by decide)

/-- C7 (confirmed): the availability filter of the loop selects exactly the
vehicles that are `Available` (derived status: `available_at ≤ now`), with
`available_at ≤ now` and `trip_count < max_trips`; and every vehicle appearing
in an assignment of a step was taken from that filtered list, so no vehicle
outside it is ever handed to the route optimizer. -/
theorem available_vehicles_spec (dist : Loc → Loc → ℚ) (speed : ℚ) (depot : Loc) (now : ℚ)
    (newOrder : Option Order) (sol : Option (List (List Nat))) (s : SimState) (v : Vehicle) :
    (v ∈ available_vehicles s.vehicle_pool now ↔
      v ∈ s.vehicle_pool ∧ v.status now = VStatus.Available ∧
        v.available_at ≤ now ∧ v.trip_count < max_trips) ∧
    ∀ a ∈ tickAssignments dist speed depot now newOrder sol s,
      a.1 ∈ available_vehicles s.vehicle_pool now := by
  constructor
  · simp only [available_vehicles, List.mem_filter, Bool.and_eq_true, decide_eq_true_eq]
    constructor
    · rintro ⟨hm, hav, ht⟩
      exact ⟨hm, by simp [Vehicle.status, hav], hav, ht⟩
    · rintro ⟨hm, _, hav, ht⟩
      exact ⟨hm, hav, ht⟩
  · intro a ha
    obtain ⟨a1, a2⟩ := a
    simp only [tickAssignments] at ha
    exact (mem_assign_orders ha).1

/-- Evaluation of the feasibility filter on the one-order state at time 0. -/
theorem tick_valid_s0 : tick_valid triDist 60 pA 0 none s0 = [oB] := by
  simp [tick_valid, tick_orders, s0, cr_oB_0]

/-- Evaluation of the one-order one-vehicle step at time 0: the single order is
assigned to the single vehicle. -/
theorem tickAssignments_s0 :
    tickAssignments triDist 60 pA 0 none (some [[0, 1]]) s0 = [(vFresh, [oB])] := by
  simp only [tickAssignments, tick_valid_s0]
  rfl

theorem available_vehicles_spec_witness :
    (vFresh, [oB]).1 ∈ available_vehicles s0.vehicle_pool 0 :=
  (available_vehicles_spec triDist 60 pA 0 none (some [[0, 1]]) s0 vFresh).2 (vFresh, [oB])
    (by rw [tickAssignments_s0]; exact List.mem_singleton.2 rfl)

/-- The commit phase keeps the pool's length. -/
theorem apply_assignments_length (dist : Loc → Loc → ℚ) (speed : ℚ) (depot : Loc) (now : ℚ)
    (asg : List (Vehicle × List Order)) (pool : List Vehicle) :
    (apply_assignments dist speed depot now asg pool).length = pool.length :=
  List.length_map pool _

/-- The commit phase rewrites each pool position in place: the id is kept and
the trip count never decreases. -/
theorem apply_assignments_vid_trip (dist : Loc → Loc → ℚ) (speed : ℚ) (depot : Loc) (now : ℚ)
    (asg : List (Vehicle × List Order)) (pool : List Vehicle) (i : Nat)
    (hi : i < pool.length) :
    ∃ hi2 : i < (apply_assignments dist speed depot now asg pool).length,
      ((apply_assignments dist speed depot now asg pool)[i]).vid = (pool[i]).vid ∧
      (pool[i]).trip_count ≤
        ((apply_assignments dist speed depot now asg pool)[i]).trip_count := by
  refine ⟨by simpa [apply_assignments_length] using hi, ?_⟩
  simp only [apply_assignments, List.getElem_map]
  cases hfind : asg.find? (fun a => a.1.vid == (pool[i]).vid) with
  | none => exact ⟨rfl, Nat.le_refl _⟩
  | some a => exact ⟨rfl, Nat.le_succ _⟩

/-- One step keeps ids positionally and never decreases a trip counter. -/
theorem tick_pool_vid_trip (dist : Loc → Loc → ℚ) (speed : ℚ) (depot : Loc) (now : ℚ)
    (newOrder : Option Order) (sol : Option (List (List Nat))) (s : SimState) (i : Nat)
    (hi : i < s.vehicle_pool.length) :
    ∃ hi2 : i < (tick dist speed depot now newOrder sol s).vehicle_pool.length,
      ((tick dist speed depot now newOrder sol s).vehicle_pool[i]).vid =
        (s.vehicle_pool[i]).vid ∧
      (s.vehicle_pool[i]).trip_count ≤
        ((tick dist speed depot now newOrder sol s).vehicle_pool[i]).trip_count :=
  apply_assignments_vid_trip dist speed depot now
    (tickAssignments dist speed depot now newOrder sol s) s.vehicle_pool i hi

/-- Along any run, ids are kept positionally and trip counters never decrease. -/
theorem run_pool_vid_trip (dist : Loc → Loc → ℚ) (speed : ℚ) (depot : Loc)
    (inputs : List TickInput) :
    ∀ (s : SimState) (i : Nat) (hi : i < s.vehicle_pool.length),
      ∃ hi2 : i < (run dist speed depot inputs s).vehicle_pool.length,
        ((run dist speed depot inputs s).vehicle_pool[i]).vid =
          (s.vehicle_pool[i]).vid ∧
        (s.vehicle_pool[i]).trip_count ≤
          ((run dist speed depot inputs s).vehicle_pool[i]).trip_count := by
  induction inputs with
  | nil => exact fun s i hi => ⟨hi, rfl, Nat.le_refl _⟩
  | cons t ts ih =>
    intro s i hi
    obtain ⟨h1, hvid1, htr1⟩ := tick_pool_vid_trip dist speed depot t.now t.newOrder t.sol s i hi
    obtain ⟨h2, hvid2, htr2⟩ := ih (tick dist speed depot t.now t.newOrder t.sol s) i h1
    simp only [run]
    exact ⟨h2, hvid2.trans hvid1, Nat.le_trans htr1 htr2⟩

/-- C8 (confirmed): a vehicle whose trip counter has reached `max_trips = 3`
keeps its id, its counter never decreases over any further run of the loop, it
is excluded from every later `available_vehicles` query, and it never appears
in any later step's assignments. -/
theorem retired_vehicle_excluded (dist : Loc → Loc → ℚ) (speed : ℚ) (depot : Loc)
    (inputs : List TickInput) (s : SimState) (i : Nat) (hi : i < s.vehicle_pool.length)
    (h3 : max_trips ≤ (s.vehicle_pool[i]).trip_count) :
    ∃ hi2 : i < (run dist speed depot inputs s).vehicle_pool.length,
      ((run dist speed depot inputs s).vehicle_pool[i]).vid = (s.vehicle_pool[i]).vid ∧
      (s.vehicle_pool[i]).trip_count ≤
        ((run dist speed depot inputs s).vehicle_pool[i]).trip_count ∧
      (∀ now2 : ℚ, ((run dist speed depot inputs s).vehicle_pool[i]) ∉
        available_vehicles (run dist speed depot inputs s).vehicle_pool now2) ∧
      (∀ (now2 : ℚ) (newOrder : Option Order) (sol : Option (List (List Nat)))
          (route : List Order),
        (((run dist speed depot inputs s).vehicle_pool[i]), route) ∉
          tickAssignments dist speed depot now2 newOrder sol
            (run dist speed depot inputs s)) := by
  obtain ⟨hi2, hvid, htr⟩ := run_pool_vid_trip dist speed depot inputs s i hi
  have h3b : max_trips ≤ ((run dist speed depot inputs s).vehicle_pool[i]).trip_count :=
    Nat.le_trans h3 htr
  refine ⟨hi2, hvid, htr, ?_, ?_⟩
  · intro now2 hmem
    simp only [available_vehicles, List.mem_filter, Bool.and_eq_true, decide_eq_true_eq] at hmem
    exact absurd hmem.2.2 (Nat.not_lt.2 h3b)
  · intro now2 newOrder sol route hmem
    simp only [tickAssignments] at hmem
    have hv := (mem_assign_orders hmem).1
    simp only [available_vehicles, List.mem_filter, Bool.and_eq_true, decide_eq_true_eq] at hv
    exact absurd hv.2.2 (Nat.not_lt.2 h3b)

theorem retired_vehicle_excluded_witness :
    ∃ hi2 : 0 < (run triDist 60 pA [] sRet).vehicle_pool.length,
      ((run triDist 60 pA [] sRet).vehicle_pool[0]).vid =
        vRetired.vid ∧
      vRetired.trip_count ≤
        ((run triDist 60 pA [] sRet).vehicle_pool[0]).trip_count ∧
      (∀ now2 : ℚ, ((run triDist 60 pA [] sRet).vehicle_pool[0]) ∉
        available_vehicles (run triDist 60 pA [] sRet).vehicle_pool now2) ∧
      (∀ (now2 : ℚ) (newOrder : Option Order) (sol : Option (List (List Nat)))
          (route : List Order),
        (((run triDist 60 pA [] sRet).vehicle_pool[0]), route) ∉
          tickAssignments triDist 60 pA now2 newOrder sol (run triDist 60 pA [] sRet)) :=
  retired_vehicle_excluded triDist 60 pA [] sRet 0 (by decide) (by decide)

/-- C2 amended theorem: an order past its deadline is never dispatched — it
fails `can_reach_in_time` against every later clock reading, so it never
enters `valid_orders` nor any assignment — but it is NOT removed from the
order pool (a step only ever appends to `all_orders`), and no log is kept. -/
theorem expired_order_never_dispatched (dist : Loc → Loc → ℚ) (speed : ℚ) (depot : Loc)
    (now : ℚ) (newOrder : Option Order) (sol : Option (List (List Nat))) (s : SimState)
    (o : Order) (hdist : 0 ≤ dist depot o.location) (hspeed : 0 < speed)
    (ho : o ∈ s.all_orders) (hexp : deadline o < now) :
    o ∈ (tick dist speed depot now newOrder sol s).all_orders ∧
    ∀ a ∈ tickAssignments dist speed depot now newOrder sol s, o ∉ a.2 := by
  constructor
  · simp only [tick, tick_orders]
    exact List.mem_append_left _ ho
  · intro a ha hoin
    obtain ⟨a1, a2⟩ := a
    simp only [tickAssignments] at ha
    have h2 := (mem_assign_orders ha).2 o hoin
    simp only [tick_valid, List.mem_filter] at h2
    have h3 := h2.2
    simp only [can_reach_in_time, decide_eq_true_eq] at h3
    have htravel : 0 ≤ travel_time_km dist speed depot o.location := by
      unfold travel_time_km
      have hd : 0 ≤ dist depot o.location / speed := div_nonneg hdist (le_of_lt hspeed)
      linarith
    unfold deadline at hexp
    linarith

theorem expired_order_never_dispatched_witness :
    oExp ∈ (tick triDist 60 pA 100 none none sExp).all_orders ∧
    ∀ a ∈ tickAssignments triDist 60 pA 100 none none sExp, oExp ∉ a.2 :=
  expired_order_never_dispatched triDist 60 pA 100 none none sExp oExp
    (by decide) (by decide) (by decide) (by norm_num [deadline, oExp])

/-- C2 counterexample: at time 100 the order `oExp` (deadline 30) is long
expired, yet the step leaves it in the order pool — the claim's removal
within the observing tick does not happen (and the program keeps no log). -/
theorem expired_order_retained :
    deadline oExp < 100 ∧
    oExp ∈ (tick triDist 60 pA 100 none none sExp).all_orders := by
  constructor
  · norm_num [deadline, oExp]
  · simp [tick, tick_orders, sExp]

/-- Mapping a projection that `filterMap` preserves on kept entries yields a
sublist of the matching projection of the whole list. -/
theorem filterMap_map_sublist {α β γ : Type} (g : α → Option β) (h1 : β → γ) (h2 : α → γ)
    (hg : ∀ a b, g a = some b → h1 b = h2 a) (l : List α) :
    List.Sublist ((l.filterMap g).map h1) (l.map h2) := by
  induction l with
  | nil => simp
  | cons a l ih =>
    cases hga : g a with
    | none =>
      simp only [List.filterMap_cons, hga, List.map_cons]
      exact List.Sublist.cons _ ih
    | some b =>
      simp only [List.filterMap_cons, hga, List.map_cons]
      rw [hg a b hga]
      exact List.Sublist.cons₂ _ ih

theorem zip_map_fst_sublist {α β : Type} (l1 : List α) (l2 : List β) :
    List.Sublist ((l1.zip l2).map Prod.fst) l1 := by
  induction l1 generalizing l2 with
  | nil => simp
  | cons a l1 ih =>
    cases l2 with
    | nil => simp
    | cons b l2 => simpa using List.Sublist.cons₂ a (ih l2)

theorem zip_map_snd_sublist {α β : Type} (l1 : List α) (l2 : List β) :
    List.Sublist ((l1.zip l2).map Prod.snd) l2 := by
  induction l1 generalizing l2 with
  | nil => simp
  | cons a l1 ih =>
    cases l2 with
    | nil => simp
    | cons b l2 => simpa using List.Sublist.cons₂ b (ih l2)

/-- Distinct input vehicle ids give distinct vehicle ids across the returned
assignments. -/
theorem assign_orders_vid_nodup (orders : List Order) (vehicles : List Vehicle)
    (sol : Option (List (List Nat))) (hnd : (vehicles.map Vehicle.vid).Nodup) :
    ((assign_orders orders vehicles sol).map (fun a => a.1.vid)).Nodup := by
  unfold assign_orders
  split
  · simp
  · cases sol with
    | none => simp
    | some routes =>
      have hS := filterMap_map_sublist (pairRoute orders)
        (fun a : Vehicle × List Order => a.1.vid)
        (fun p : Vehicle × List Nat => p.1.vid)
        (fun p a h => by
          by_cases hre : (extractRoute orders p.2).isEmpty
          · simp [pairRoute, hre] at h
          · simp only [pairRoute, hre, Bool.false_eq_true, if_false, Option.some.injEq] at h
            rw [← h])
        (vehicles.zip routes)
      have hT : List.Sublist ((vehicles.zip routes).map
          (fun p : Vehicle × List Nat => p.1.vid)) (vehicles.map Vehicle.vid) := by
        have h1 : (vehicles.zip routes).map (fun p : Vehicle × List Nat => p.1.vid)
            = ((vehicles.zip routes).map Prod.fst).map Vehicle.vid := by
          rw [List.map_map]; rfl
        rw [h1]
        exact (zip_map_fst_sublist vehicles routes).map Vehicle.vid
      exact hnd.sublist (hS.trans hT)

theorem available_vid_nodup (pool : List Vehicle) (now : ℚ)
    (hnd : (pool.map Vehicle.vid).Nodup) :
    ((available_vehicles pool now).map Vehicle.vid).Nodup :=
  hnd.sublist ((List.filter_sublist pool).map Vehicle.vid)

/-- With pairwise-distinct assignment vehicle ids, the commit phase rewrites
the assigned vehicle exactly as the loop body does: `trip_count` is
incremented and `available_at` becomes `now + total_route_minutes`. -/
theorem apply_assignments_commits (dist : Loc → Loc → ℚ) (speed : ℚ) (depot : Loc) (now : ℚ)
    (asg : List (Vehicle × List Order)) (pool : List Vehicle) (v : Vehicle)
    (route : List Order) (hnd : (asg.map (fun a => a.1.vid)).Nodup)
    (hmem : (v, route) ∈ asg) (hv : v ∈ pool) :
    ∃ v' ∈ apply_assignments dist speed depot now asg pool,
      v'.vid = v.vid ∧ v'.trip_count = v.trip_count + 1 ∧
      v'.available_at = now + total_route_minutes dist speed depot route := by
  have hfind : asg.find? (fun a => a.1.vid == v.vid) = some (v, route) := by
    have hsome : (asg.find? (fun a => a.1.vid == v.vid)).isSome :=
      List.find?_isSome.2 ⟨(v, route), hmem, by simp⟩
    obtain ⟨a, ha⟩ := Option.isSome_iff_exists.1 hsome
    have hamem := List.mem_of_find?_eq_some ha
    have havid : a.1.vid = v.vid := by simpa using List.find?_some ha
    have heq : a = (v, route) :=
      List.inj_on_of_nodup_map hnd hamem hmem (by simpa using havid)
    rw [ha, heq]
  refine ⟨commit_vehicle dist speed depot now v route, ?_, rfl, rfl, rfl⟩
  unfold apply_assignments
  rw [List.mem_map]
  refine ⟨v, hv, ?_⟩
  show (match asg.find? (fun a => a.1.vid == v.vid) with
    | some a => commit_vehicle dist speed depot now v a.2
    | none => v) = commit_vehicle dist speed depot now v route
  rw [hfind]

/-- Each assignment of a step updates its vehicle in the pool: same id,
incremented trip count, `available_at = now + total_route_minutes`. -/
theorem tick_commits (dist : Loc → Loc → ℚ) (speed : ℚ) (depot : Loc) (now : ℚ)
    (newOrder : Option Order) (sol : Option (List (List Nat))) (s : SimState)
    (v : Vehicle) (route : List Order)
    (hnd : (s.vehicle_pool.map Vehicle.vid).Nodup)
    (hmem : (v, route) ∈ tickAssignments dist speed depot now newOrder sol s) :
    ∃ v' ∈ (tick dist speed depot now newOrder sol s).vehicle_pool,
      v'.vid = v.vid ∧ v'.trip_count = v.trip_count + 1 ∧
      v'.available_at = now + total_route_minutes dist speed depot route := by
  have hnd2 : ((tickAssignments dist speed depot now newOrder sol s).map
      (fun a => a.1.vid)).Nodup := by
    simp only [tickAssignments]
    exact assign_orders_vid_nodup _ _ _ (available_vid_nodup _ _ hnd)
  have hvav : v ∈ available_vehicles s.vehicle_pool now := by
    have h := hmem
    simp only [tickAssignments] at h
    exact (mem_assign_orders h).1
  have hvpool : v ∈ s.vehicle_pool := by
    simp only [available_vehicles, List.mem_filter] at hvav
    exact hvav.1
  simp only [tick]
  exact apply_assignments_commits dist speed depot now _ s.vehicle_pool v route hnd2 hmem hvpool

/-- C5 amended theorem: when an assignment is committed, the vehicle's
`available_at` becomes `now` plus the sum of the depot→order travel times of
the route's orders — every leg is measured from the depot, NOT along
depot→order1→order2→… — and its `trip_count` is incremented by one. -/
theorem commit_route_duration (dist : Loc → Loc → ℚ) (speed : ℚ) (depot : Loc) (now : ℚ)
    (newOrder : Option Order) (sol : Option (List (List Nat))) (s : SimState)
    (v : Vehicle) (route : List Order)
    (hnd : (s.vehicle_pool.map Vehicle.vid).Nodup)
    (hmem : (v, route) ∈ tickAssignments dist speed depot now newOrder sol s) :
    ∃ v' ∈ (tick dist speed depot now newOrder sol s).vehicle_pool,
      v'.vid = v.vid ∧ v'.trip_count = v.trip_count + 1 ∧
      v'.available_at =
        now + (route.map (fun o => travel_time_km dist speed depot o.location)).sum :=
  tick_commits dist speed depot now newOrder sol s v route hnd hmem

theorem commit_route_duration_witness :
    ∃ v' ∈ (tick triDist 60 pA 0 none (some [[0, 1]]) s0).vehicle_pool,
      v'.vid = vFresh.vid ∧ v'.trip_count = vFresh.trip_count + 1 ∧
      v'.available_at =
        0 + ([oB].map (fun o => travel_time_km triDist 60 pA o.location)).sum :=
  commit_route_duration triDist 60 pA 0 none (some [[0, 1]]) s0 vFresh [oB]
    (by decide) (by rw [tickAssignments_s0]; exact List.mem_singleton.2 rfl)

/-- Evaluation of the two-order step at time 0: both orders are assigned to
the single vehicle, visiting `oB` then `oC`. -/
theorem tickAssignments_sBC :
    tickAssignments triDist 60 pA 0 none (some [[0, 1, 2]]) sBC = [(vFresh, [oB, oC])] := by
  have hv : tick_valid triDist 60 pA 0 none sBC = [oB, oC] := by
    simp [tick_valid, tick_orders, sBC, cr_oB_0, cr_oC_0]
  simp only [tickAssignments, hv]
  rfl

/-- C5 counterexample: with the 3-4-5 metric and speed 60, committing the
route `[oB, oC]` sets `available_at = 0 + 7` (7 = 3 + 4, both legs measured
from the depot), while the sum of consecutive leg travel times along
depot→oB→oC is 3 + 5 = 8 — the committed `available_at` is not
`now + legDuration` as claimed. -/
theorem route_duration_counterexample :
    tickAssignments triDist 60 pA 0 none (some [[0, 1, 2]]) sBC = [(vFresh, [oB, oC])] ∧
    total_route_minutes triDist 60 pA [oB, oC] = 7 ∧
    spec_leg_duration triDist 60 pA [oB, oC] = 8 ∧
    ((tick triDist 60 pA 0 none (some [[0, 1, 2]]) sBC).vehicle_pool.map
      Vehicle.available_at) = [0 + 7] ∧
    (0 + 7 : ℚ) ≠ 0 + 8 := by
  refine ⟨tickAssignments_sBC, ?_, ?_, ?_, by norm_num⟩
  · simp only [total_route_minutes, List.map_cons, List.map_nil, List.sum_cons, List.sum_nil]
    simp only [oB, oC]
    rw [tt_AB, tt_AC]
    norm_num
  · simp only [spec_leg_duration, oB, oC]
    rw [tt_AB, tt_BC]
    norm_num
  · have h1 : ((tick triDist 60 pA 0 none (some [[0, 1, 2]]) sBC).vehicle_pool.map
        Vehicle.available_at)
        = [0 + (travel_time_km triDist 60 pA pB + (travel_time_km triDist 60 pA pC + 0))] := by
      simp only [tick, tickAssignments_sBC]
      rfl
    rw [h1, tt_AB, tt_AC]
    norm_num

/-- C3 amended theorem: the commit phase performs no validation: every
assignment of a step is applied unconditionally — even one whose total volume
exceeds the vehicle's declared `max_vol`, the vehicle is dispatched (trip
count incremented, `available_at` pushed out); there is no `CapacityExceeded`
path and no rejection. The route's orders do remain in the order pool, but
only because the pool is never pruned, not because the commit was refused. -/
theorem commit_never_validates (dist : Loc → Loc → ℚ) (speed : ℚ) (depot : Loc) (now : ℚ)
    (newOrder : Option Order) (sol : Option (List (List Nat))) (s : SimState)
    (v : Vehicle) (route : List Order)
    (hnd : (s.vehicle_pool.map Vehicle.vid).Nodup)
    (hmem : (v, route) ∈ tickAssignments dist speed depot now newOrder sol s)
    (hover : v.max_vol < (route.map Order.volume).sum) :
    (∃ v' ∈ (tick dist speed depot now newOrder sol s).vehicle_pool,
      v'.vid = v.vid ∧ v'.trip_count = v.trip_count + 1 ∧
      v'.available_at = now + total_route_minutes dist speed depot route) ∧
    ∀ o ∈ route, o ∈ (tick dist speed depot now newOrder sol s).all_orders := by
  refine ⟨tick_commits dist speed depot now newOrder sol s v route hnd hmem, ?_⟩
  intro o ho
  have h := hmem
  simp only [tickAssignments] at h
  have h2 := (mem_assign_orders h).2 o ho
  simp only [tick_valid, List.mem_filter] at h2
  simp only [tick]
  exact h2.1

/-- Evaluation of the five-order step at time 0: all five orders are assigned
to the single vehicle. -/
theorem tickAssignments_sC3 :
    tickAssignments triDist 60 pA 0 none (some [[0, 1, 2, 3, 4, 5]]) sC3 =
      [(vFresh, fiveOrders)] := by
  have hv : tick_valid triDist 60 pA 0 none sC3 = fiveOrders := by
    simp [tick_valid, tick_orders, sC3, fiveOrders, cr_vol25]
  simp only [tickAssignments, hv]
  rfl

theorem commit_never_validates_witness :
    (∃ v' ∈ (tick triDist 60 pA 0 none (some [[0, 1, 2, 3, 4, 5]]) sC3).vehicle_pool,
      v'.vid = vFresh.vid ∧ v'.trip_count = vFresh.trip_count + 1 ∧
      v'.available_at = 0 + total_route_minutes triDist 60 pA fiveOrders) ∧
    ∀ o ∈ fiveOrders,
      o ∈ (tick triDist 60 pA 0 none (some [[0, 1, 2, 3, 4, 5]]) sC3).all_orders :=
  commit_never_validates triDist 60 pA 0 none (some [[0, 1, 2, 3, 4, 5]]) sC3 vFresh
    fiveOrders (by decide)
    (by rw [tickAssignments_sC3]; exact List.mem_singleton.2 rfl) (by decide)

/-- C3 counterexample: an assignment whose total volume (125) exceeds the
vehicle's capacity (100) and satisfies the solver contract is committed
anyway — the vehicle does not stay unchanged (its trip count becomes 1);
nothing fails and nothing is rejected. -/
theorem commit_accepts_overload :
    vFresh.max_vol < (fiveOrders.map Order.volume).sum ∧
    validSolve fiveOrders.length 1 5 [[0, 1, 2, 3, 4, 5]] = true ∧
    tickAssignments triDist 60 pA 0 none (some [[0, 1, 2, 3, 4, 5]]) sC3 =
      [(vFresh, fiveOrders)] ∧
    ((tick triDist 60 pA 0 none (some [[0, 1, 2, 3, 4, 5]]) sC3).vehicle_pool.map
      Vehicle.trip_count) = [1] := by
  refine ⟨by decide, by decide, tickAssignments_sC3, ?_⟩
  simp only [tick, tickAssignments_sC3]
  rfl

/-- Evaluation of the four-order step at time 0: all four orders are assigned
to the single vehicle. -/
theorem tickAssignments_sC1 :
    tickAssignments triDist 60 pA 0 none (some [[0, 1, 2, 3, 4]]) sC1 =
      [(vFresh, fourOrders)] := by
  have hv : tick_valid triDist 60 pA 0 none sC1 = fourOrders := by
    simp [tick_valid, tick_orders, sC1, fourOrders, cr_vol30]
  simp only [tickAssignments, hv]
  rfl

/-- C1: the solver model built by the code constrains only the stop count
(`OrderCount` dimension); volume and weight are computed but never used, so a
contract-conforming solve can assign orders whose total volume (120) exceeds
the vehicle's `max_vol` (100), and the loop commits it: the capacity
invariant claimed by the spec does not hold. -/
theorem capacity_not_enforced :
    validSolve fourOrders.length 1 5 [[0, 1, 2, 3, 4]] = true ∧
    tickAssignments triDist 60 pA 0 none (some [[0, 1, 2, 3, 4]]) sC1 =
      [(vFresh, fourOrders)] ∧
    (fourOrders.map Order.volume).sum = 120 ∧
    vFresh.max_vol = 100 ∧
    ((tick triDist 60 pA 0 none (some [[0, 1, 2, 3, 4]]) sC1).vehicle_pool.map
      Vehicle.trip_count) = [1] := by
  refine ⟨by decide, tickAssignments_sC1, by decide, by decide, ?_⟩
  simp only [tick, tickAssignments_sC1]
  rfl

theorem extractRoute_cons_zero (orders : List Order) (rest : List Nat) :
    extractRoute orders (0 :: rest) = extractRoute orders rest := by
  simp [extractRoute]

theorem extractRoute_cons_none (orders : List Order) (node : Nat) (rest : List Nat)
    (h0 : node ≠ 0) (hget : orders[node - 1]? = none) :
    extractRoute orders (node :: rest) = extractRoute orders rest := by
  simp [extractRoute, List.filterMap_cons, h0, hget]

theorem extractRoute_cons_some (orders : List Order) (node : Nat) (rest : List Nat)
    (o : Order) (h0 : node ≠ 0) (hget : orders[node - 1]? = some o) :
    extractRoute orders (node :: rest) = o :: extractRoute orders rest := by
  simp [extractRoute, List.filterMap_cons, h0, hget]

/-- If no order carries id `x`, no extracted route delivers id `x`. -/
theorem count_extract_zero (orders : List Order) (x : Nat)
    (hchar : ∀ i (h : i < orders.length), (orders[i]).oid ≠ x) (nodes : List Nat) :
    ((extractRoute orders nodes).map Order.oid).count x = 0 := by
  induction nodes with
  | nil => simp [extractRoute]
  | cons node rest ih =>
    by_cases h0 : node = 0
    · rw [h0, extractRoute_cons_zero]
      exact ih
    · cases hget : orders[node - 1]? with
      | none =>
        rw [extractRoute_cons_none orders node rest h0 hget]
        exact ih
      | some o =>
        obtain ⟨hlt, hoe⟩ := List.getElem?_eq_some_iff.1 hget
        have hne : o.oid ≠ x := by rw [← hoe]; exact hchar _ hlt
        rw [extractRoute_cons_some orders node rest o h0 hget]
        simp [List.count_cons, hne, ih]

/-- If id `x` sits at the unique position `j` of the order list, a route's
extracted deliveries of `x` are bounded by its visits of node `j + 1`. -/
theorem count_extract_le (orders : List Order) (x j : Nat)
    (hchar : ∀ i (h : i < orders.length), ((orders[i]).oid = x ↔ i = j))
    (nodes : List Nat) :
    ((extractRoute orders nodes).map Order.oid).count x ≤ nodes.count (j + 1) := by
  induction nodes with
  | nil => simp [extractRoute]
  | cons node rest ih =>
    have hstep : rest.count (j + 1) ≤ (node :: rest).count (j + 1) := by
      simp only [List.count_cons]
      split <;> omega
    by_cases h0 : node = 0
    · subst h0
      rw [extractRoute_cons_zero]
      exact Nat.le_trans ih hstep
    · cases hget : orders[node - 1]? with
      | none =>
        rw [extractRoute_cons_none orders node rest h0 hget]
        exact Nat.le_trans ih hstep
      | some o =>
        obtain ⟨hlt, hoe⟩ := List.getElem?_eq_some_iff.1 hget
        rw [extractRoute_cons_some orders node rest o h0 hget]
        by_cases hx : o.oid = x
        · have hj : node - 1 = j := (hchar _ hlt).1 (by rw [hoe]; exact hx)
          have hnode : node = j + 1 := by omega
          subst hnode
          simp only [List.map_cons, List.count_cons, hx]
          simp only [beq_self_eq_true, if_pos]
          omega
        · simp only [List.map_cons, List.count_cons]
          have hbx : (o.oid == x) = false := by simp [hx]
          rw [hbx]
          simp only [Bool.false_eq_true, if_false]
          split <;> omega

theorem assigned_oids_cons (a : Vehicle × List Order) (l : List (Vehicle × List Order)) :
    assigned_oids (a :: l) = a.2.map Order.oid ++ assigned_oids l := rfl

/-- Counting a dispatched id over the assignments built from the solver walk
equals summing its extraction count per vehicle route. -/
theorem pairRoute_eq_none (orders : List Order) (p : Vehicle × List Nat)
    (hre : (extractRoute orders p.2).isEmpty) : pairRoute orders p = none := by
  simp [pairRoute, hre]

theorem pairRoute_eq_some (orders : List Order) (p : Vehicle × List Nat)
    (hre : ¬(extractRoute orders p.2).isEmpty = true) :
    pairRoute orders p = some (p.1, extractRoute orders p.2) := by
  simp [pairRoute, hre]

theorem assigned_oids_count (orders : List Order) (x : Nat) (l : List (Vehicle × List Nat)) :
    (assigned_oids (l.filterMap (pairRoute orders))).count x
      = (l.map (fun p => ((extractRoute orders p.2).map Order.oid).count x)).sum := by
  induction l with
  | nil => simp [assigned_oids]
  | cons p l ih =>
    by_cases hre : (extractRoute orders p.2).isEmpty
    · have hempty : extractRoute orders p.2 = [] := List.isEmpty_iff.1 hre
      rw [List.filterMap_cons_none (pairRoute_eq_none orders p hre)]
      simp [hempty, ih]
    · rw [List.filterMap_cons_some (pairRoute_eq_some orders p hre)]
      simp only [assigned_oids_cons, List.count_append, List.map_cons, List.sum_cons, ih]

/-- Under the solver contract and distinct order ids, the assignments of one
solve dispatch each order id at most once. -/
theorem assign_orders_count_le (orders : List Order) (vehicles : List Vehicle)
    (routes : List (List Nat)) (cap x : Nat)
    (hnd : (orders.map Order.oid).Nodup)
    (hv : validSolve orders.length vehicles.length cap routes = true) :
    (assigned_oids (assign_orders orders vehicles (some routes))).count x ≤ 1 := by
  by_cases he : orders.isEmpty || vehicles.isEmpty
  · simp [assign_orders, he, assigned_oids]
  · have hgoal : assign_orders orders vehicles (some routes)
        = (vehicles.zip routes).filterMap (pairRoute orders) := by
      simp [assign_orders, he]
    rw [hgoal, assigned_oids_count]
    simp only [validSolve, Bool.and_eq_true, decide_eq_true_eq, List.all_eq_true] at hv
    obtain ⟨⟨⟨_hlen, _hcap⟩, _hrange⟩, honce⟩ := hv
    by_cases hex : ∃ o ∈ orders, o.oid = x
    · obtain ⟨o, ho, hox⟩ := hex
      obtain ⟨j, hj, hoj⟩ := List.mem_iff_getElem.1 ho
      have hchar : ∀ i (h : i < orders.length), ((orders[i]).oid = x ↔ i = j) := by
        intro i h
        constructor
        · intro hx
          have hi2 : i < (orders.map Order.oid).length := by simpa using h
          have hj2 : j < (orders.map Order.oid).length := by simpa using hj
          have h1 : (orders.map Order.oid)[i] = (orders.map Order.oid)[j] := by
            rw [List.getElem_map, List.getElem_map, hx, hoj, hox]
          exact (List.Nodup.getElem_inj_iff hnd).1 h1
        · intro he2
          subst he2
          rw [hoj]
          exact hox
      have hb1 : (List.map (fun p => ((extractRoute orders p.2).map Order.oid).count x)
            (vehicles.zip routes)).sum
          ≤ (List.map (fun p : Vehicle × List Nat => p.2.count (j + 1))
            (vehicles.zip routes)).sum :=
        List.sum_le_sum (fun p _ => count_extract_le orders x j hchar p.2)
      have hb2 : (List.map (fun p : Vehicle × List Nat => p.2.count (j + 1))
            (vehicles.zip routes)).sum
          ≤ (routes.map (fun r => r.count (j + 1))).sum := by
        have hz : List.map (fun p : Vehicle × List Nat => p.2.count (j + 1))
              (vehicles.zip routes)
            = ((vehicles.zip routes).map Prod.snd).map (fun r => r.count (j + 1)) := by
          rw [List.map_map]; rfl
        rw [hz]
        exact ((zip_map_snd_sublist vehicles routes).map
          (fun r => r.count (j + 1))).sum_le_sum (by simp)
      have hend : (routes.map (fun r => r.count (j + 1))).sum = 1 :=
        honce j (List.mem_range.2 hj)
      omega
    · push_neg at hex
      have hchar : ∀ i (h : i < orders.length), (orders[i]).oid ≠ x := by
        intro i h
        exact hex _ (List.getElem_mem h)
      have hzero : (List.map (fun p => ((extractRoute orders p.2).map Order.oid).count x)
          (vehicles.zip routes)).sum = 0 := by
        apply List.sum_eq_zero
        intro n hn
        obtain ⟨p, _, hp⟩ := List.mem_map.1 hn
        rw [← hp]
        exact count_extract_zero orders x hchar p.2
      omega

/-- C4 amended theorem: within one step, under the solver contract and
distinct pending order ids, every order id appears in at most one committed
route (at most once across all assignments of the step). How the orders of
the pool evolve across steps is a different matter: nothing is removed after
a commit, see the counterexample. -/
theorem no_double_assignment_within_tick (dist : Loc → Loc → ℚ) (speed : ℚ) (depot : Loc)
    (now : ℚ) (newOrder : Option Order) (routes : List (List Nat)) (cap : Nat)
    (s : SimState) (x : Nat)
    (hnd : ((tick_orders s newOrder).map Order.oid).Nodup)
    (hv : validSolve (tick_valid dist speed depot now newOrder s).length
        (available_vehicles s.vehicle_pool now).length cap routes = true) :
    (assigned_oids (tickAssignments dist speed depot now newOrder (some routes) s)).count x
      ≤ 1 := by
  have hnd2 : ((tick_valid dist speed depot now newOrder s).map Order.oid).Nodup :=
    hnd.sublist ((List.filter_sublist _).map Order.oid)
  simp only [tickAssignments]
  exact assign_orders_count_le _ _ _ cap x hnd2 hv

theorem no_double_assignment_within_tick_witness :
    (assigned_oids (tickAssignments triDist 60 pA 0 none (some [[0, 1]]) s0)).count 0 ≤ 1 :=
  no_double_assignment_within_tick triDist 60 pA 0 none [[0, 1]] 3 s0 0
    (by decide) (by rw [tick_valid_s0]; decide)

/-- C4 counterexample: the order `oB` is assigned and committed at the step at
time 0, yet — because nothing removes it from `all_orders` — the step at time
10 assigns the very same order to the very same vehicle again. -/
theorem order_reassigned_counterexample :
    assigned_oids (tickAssignments triDist 60 pA 0 none (some [[0, 1]]) s0) = [oB.oid] ∧
    assigned_oids (tickAssignments triDist 60 pA 10 none (some [[0, 1]])
      (tick triDist 60 pA 0 none (some [[0, 1]]) s0)) = [oB.oid] := by
  constructor
  · rw [tickAssignments_s0]; rfl
  · have hpool : apply_assignments triDist 60 pA 0 [(vFresh, [oB])] s0.vehicle_pool
        = [{ vid := 1, max_vol := 100, max_weight := 200,
             available_at := 0 + (travel_time_km triDist 60 pA pB + 0),
             trip_count := 0 + 1 }] := rfl
    have ht1 : tick triDist 60 pA 0 none (some [[0, 1]]) s0 = s1 := by
      simp only [tick, tickAssignments_s0]
      rw [hpool, tt_AB]
      norm_num [s1, vB1, tick_orders, s0]
    rw [ht1]
    have hv : tick_valid triDist 60 pA 10 none s1 = [oB] := by
      simp [tick_valid, tick_orders, s1, cr_oB_10]
    simp only [tickAssignments, hv]
    rfl

end VRP
